import Mathlib

/-!
Shallow embedding of `status.py` from MDTrainingSetGenerator.

The program is a filesystem-walk-and-aggregate pipeline.  We model the
filesystem walk (`os.walk`) as a list of directory entries, each carrying
the directory's path split at the separator (`root.split(os.sep)`) and the
list of filenames directly contained in it.  Python dicts are modelled as
insertion-ordered association lists (assignment of a new key appends at the
end, re-assignment updates in place, iteration follows list order — exactly
Python's dict semantics).  Python exceptions (`ValueError` from `int()`,
`KeyError` from dict indexing) are modelled with `Except String` / `Option`.
-/

set_option autoImplicit false

namespace MDStatus

/-- A directory visited by `os.walk`: its path split into segments
(`root.split(os.sep)`) and the names of the files directly inside it. -/
structure WalkDir where
  path : List String
  files : List String
deriving DecidableEq

/-! ### Generic list/string helpers used by the embedding -/

/-- `startsWith pat l`: the character list `pat` is an initial segment of `l`. -/
def startsWith : List Char → List Char → Bool
  | [], _ => true
  | _ :: _, [] => false
  | p :: ps, c :: cs => p == c && startsWith ps cs

/-- `containsSub pat l`: `pat` occurs as a contiguous substring of `l`
(models Python's `pat in str`). -/
def containsSub (pat : List Char) : List Char → Bool
  | [] => pat.isEmpty
  | c :: rest => startsWith pat (c :: rest) || containsSub pat rest

/-- `endsWithStr s suff`: models Python's `str.endswith`. -/
def endsWithStr (s suff : String) : Bool :=
  startsWith suff.toList.reverse s.toList.reverse

/-- Index (from 0) of the last `.` in a character list, if any. -/
def rfindDotAux : List Char → Nat → Option Nat
  | [], _ => none
  | c :: rest, i =>
    match rfindDotAux rest (i + 1) with
    | some j => some j
    | none => if c == '.' then some i else none

def rfindDot (cs : List Char) : Option Nat :=
  rfindDotAux cs 0

/-- `os.path.splitext(f)[0]` for a bare filename (no path separators):
strip from the last dot, unless every character before that dot is itself a
dot (leading-dot files such as `.cif` keep their full name). -/
def splitextBase (f : String) : String :=
  let cs := f.toList
  match rfindDot cs with
  | none => f
  | some i => if (cs.take i).all (fun c => c == '.') then f else String.mk (cs.take i)

/-! ### Python `int(str)` (base 10) -/

/-- ASCII whitespace stripped by Python's `int()`. -/
def isPySpace (c : Char) : Bool :=
  c == ' ' || c == '\t' || c == '\n' || c == '\r' || c == Char.ofNat 11 || c == Char.ofNat 12

/-- After the first digit, Python allows single underscores strictly between
digits. -/
def digitsTail : List Char → Bool
  | [] => true
  | c :: rest =>
    if c == '_' then
      match rest with
      | [] => false
      | c2 :: rest2 => c2.isDigit && digitsTail rest2
    else c.isDigit && digitsTail rest

/-- A nonempty digit sequence with optional single underscores between digits. -/
def digitsOK : List Char → Bool
  | [] => false
  | c :: rest => c.isDigit && digitsTail rest

def digitVal (c : Char) : Nat := c.toNat - '0'.toNat

def natOfDigits (cs : List Char) : Nat :=
  cs.foldl (fun a c => a * 10 + digitVal c) 0

/-- Python `int(s)` in base 10 (restricted to ASCII digits/whitespace):
strip surrounding whitespace, allow one optional sign, then digits with
single underscores between digits; `none` models the `ValueError`. -/
def pyIntParse (s : String) : Option Int :=
  let cs := ((s.toList.dropWhile isPySpace).reverse.dropWhile isPySpace).reverse
  match cs with
  | '+' :: rest =>
    if digitsOK rest then some (Int.ofNat (natOfDigits (rest.filter (fun c => c != '_')))) else none
  | '-' :: rest =>
    if digitsOK rest then some (-(Int.ofNat (natOfDigits (rest.filter (fun c => c != '_'))))) else none
  | rest =>
    if digitsOK rest then some (Int.ofNat (natOfDigits (rest.filter (fun c => c != '_')))) else none

/-- `path_parts[-k]` (negative indexing); only used under `len(path_parts) >= 6`. -/
def partFromEnd (parts : List String) (k : Nat) : String :=
  parts.getD (parts.length - k) ""

/-! ### Insertion-ordered association lists (Python dicts) -/

/-- `d[k]` / `k in d`: first (unique) binding of key `k`. -/
def alGet? {κ ν : Type} [DecidableEq κ] (k : κ) : List (κ × ν) → Option ν
  | [] => none
  | (k', v) :: rest => if k = k' then some v else alGet? k rest

/-- `d[k] = v`: update in place if the key exists, else append at the end
(Python dict insertion order). -/
def alSet {κ ν : Type} [DecidableEq κ] (k : κ) (v : ν) : List (κ × ν) → List (κ × ν)
  | [] => [(k, v)]
  | (k', v') :: rest => if k = k' then (k, v) :: rest else (k', v') :: alSet k v rest

/-! ### Data model of the calculations table -/

/-- The innermost tally dict `{"completed": n, "not_started": m}`. -/
structure StatusCounts where
  completed : Nat
  not_started : Nat
deriving DecidableEq

abbrev EnsTable := List (String × StatusCounts)
abbrev TempTable := List (Int × EnsTable)
abbrev StructTable := List (String × TempTable)
abbrev CalcTable := List (String × StructTable)

/-- The fresh ensemble dict created for a new temperature entry:
`{"npt": {"completed": 0, "not_started": 0}, "nvt": {...}}`. -/
def freshEns : EnsTable := [("npt", ⟨0, 0⟩), ("nvt", ⟨0, 0⟩)]

/-! ### The four functions of `status.py` -/

/-- `get_valid_cif_files`, per file: add the extension-stripped base name of
every `.cif` file not containing `_dont_use` (set semantics: keep one copy). -/
def addValidFile (acc : List String) (file : String) : List String :=
  if endsWithStr file ".cif" && !containsSub "_dont_use".toList file.toList then
    if splitextBase file ∈ acc then acc else acc ++ [splitextBase file]
  else acc

/-- `get_valid_cif_files(directory)`: walk every directory, collect base
names of valid CIF files (a set, modelled as a duplicate-free list). -/
def get_valid_cif_files (walk : List WalkDir) : List String :=
  walk.foldl (fun acc d => d.files.foldl addValidFile acc) []

/-- Python `f"{n:02d}"` for a natural number. -/
def format02 (n : Nat) : String :=
  if n < 10 then "0" ++ toString n else toString n

/-- `get_job_status(directory, iteration)`: `"completed"` iff the file
`{iteration:02d}_aimd_REPORT` exists directly in the directory (whose direct
file listing is `files`), else `"not_started"`.  Pure existence check. -/
def get_job_status (files : List String) (iteration : Nat) : String :=
  let report_file := format02 iteration ++ "_aimd_REPORT"
  if report_file ∈ files then "completed" else "not_started"

/-- `re.match(r'^\d{2}_aimd_', file)`: two (ASCII) digits then `_aimd_`. -/
def matchesAimd (file : String) : Bool :=
  match file.toList with
  | c1 :: c2 :: rest => c1.isDigit && c2.isDigit && startsWith "_aimd_".toList rest
  | _ => false

/-- `int(file[:2])` for a filename whose first two characters are digits
(guaranteed by the regex guard). -/
def iterOf (file : String) : Nat :=
  match file.toList with
  | c1 :: c2 :: _ => digitVal c1 * 10 + digitVal c2
  | _ => 0

/-- Insert into a list sorted ascending by `key` (stable). -/
def insertSortedBy {α κ : Type} [LinearOrder κ] (key : α → κ) (x : α) : List α → List α
  | [] => [x]
  | y :: ys => if key x ≤ key y then x :: y :: ys else y :: insertSortedBy key x ys

/-- Python `sorted(l, key=key)` (insertion sort; keys are distinct at every
use site, so stability is immaterial). -/
def sortBy {α κ : Type} [LinearOrder κ] (key : α → κ) (l : List α) : List α :=
  l.foldr (insertSortedBy key) []

/-- `set(...)`: deduplicate, keeping first occurrences. -/
def dedupKeep (l : List Nat) : List Nat :=
  l.foldl (fun acc n => if n ∈ acc then acc else acc ++ [n]) []

/-- `sorted(set(int(file[:2]) for file in files if re.match(r'^\d{2}_aimd_', file)))`. -/
def resolveIterations (files : List String) : List Nat :=
  sortBy id (dedupKeep ((files.filter (fun f => matchesAimd f)).map iterOf))

/-- Functional update of the nested table at `[m][s][t]` with ensemble table
`et` (the net effect of Python's chained `d[k] = ...` assignments). -/
def setCell (tbl : CalcTable) (m s : String) (t : Int) (et : EnsTable) : CalcTable :=
  let st := (alGet? m tbl).getD []
  let tt := (alGet? s st).getD []
  alSet m (alSet s (alSet t et tt) st) tbl

/-- The three `if ... not in ...:` guards of `analyze_calculations`: ensure
`calculations[functional][base_name][temperature]` exists, creating a fresh
`{"npt": zero, "nvt": zero}` dict only when the temperature key is new. -/
def ensureEntry (tbl : CalcTable) (functional base_name : String) (temperature : Int) : CalcTable :=
  let st := (alGet? functional tbl).getD []
  let tt := (alGet? base_name st).getD []
  let et := (alGet? temperature tt).getD freshEns
  setCell tbl functional base_name temperature et

/-- The innermost dict lookup `sc[job_status]` followed by `+= 1`;
`none` models the `KeyError` for a status other than the two keys. -/
def bumpStatus (sc : StatusCounts) (status : String) : Option StatusCounts :=
  if status = "completed" then some { sc with completed := sc.completed + 1 }
  else if status = "not_started" then some { sc with not_started := sc.not_started + 1 }
  else none

/-- `calculations[functional][base_name][temperature][ensemble][job_status] += 1`:
each lookup can raise `KeyError` (modelled as `none`). -/
def bumpCell (tbl : CalcTable) (m s : String) (t : Int) (ens status : String) :
    Option CalcTable := do
  let st ← alGet? m tbl
  let tt ← alGet? s st
  let et ← alGet? t tt
  let sc ← alGet? ens et
  let sc' ← bumpStatus sc status
  some (setCell tbl m s t (alSet ens sc' et))

/-- Reading the cell `[m][s][t][ens]` of the table. -/
def cellOf (tbl : CalcTable) (m s : String) (t : Int) (ens : String) :
    Option StatusCounts := do
  let st ← alGet? m tbl
  let tt ← alGet? s st
  let et ← alGet? t tt
  alGet? ens et

/-- The body of `analyze_calculations`'s walk loop for one visited directory.
Mirrors the source's control flow exactly: the `POSCAR` test, the depth
guard, path-segment extraction, `int()` on the temperature segment (which
raises before the valid-name test), the valid-name `continue`, lazy table
creation, then one increment per resolved iteration. -/
def stepDir (valid_cif_files : List String) (calculations : CalcTable) (d : WalkDir) :
    Except String CalcTable :=
  if "POSCAR" ∈ d.files then
    if d.path.length ≥ 6 then
      let base_name := partFromEnd d.path 5
      let functional := partFromEnd d.path 4
      let ensemble := partFromEnd d.path 3
      -- scaling := partFromEnd d.path 2 is captured by the source and never used
      match pyIntParse (partFromEnd d.path 1) with
      | none => Except.error ("invalid literal for int() with base 10: " ++ partFromEnd d.path 1)
      | some temperature =>
        if base_name ∉ valid_cif_files then Except.ok calculations
        else
          let calculations := ensureEntry calculations functional base_name temperature
          let iterations := resolveIterations d.files
          match iterations.foldlM
              (fun c n => bumpCell c functional base_name temperature ensemble (get_job_status d.files n))
              calculations with
          | some c => Except.ok c
          | none => Except.error ("KeyError: " ++ ensemble)
    else Except.ok calculations
  else Except.ok calculations

/-- `analyze_calculations(directory, valid_cif_files)`: fold the walk-loop
body over every visited directory; any raised exception aborts the run. -/
def analyze_calculations (walk : List WalkDir) (valid_cif_files : List String) :
    Except String CalcTable :=
  walk.foldlM (stepDir valid_cif_files) []

/-! ### `print_summary` -/

/-- Python `"{:<w}".format(s)`: left-align, pad with spaces up to width `w`
(longer strings are kept whole). -/
def padTo (w : Nat) (s : String) : String :=
  s ++ String.mk (List.replicate (w - s.length) ' ')

/-- One `"{:<25} {:<12} {:<4} {:<4} {:<6} {:<6}".format(...)` line. -/
def formatRow (c1 c2 c3 c4 c5 c6 : String) : String :=
  padTo 25 c1 ++ " " ++ padTo 12 c2 ++ " " ++ padTo 4 c3 ++ " " ++
    padTo 4 c4 ++ " " ++ padTo 6 c5 ++ " " ++ padTo 6 c6

def headerRow : String :=
  formatRow "Structure" "Temperature" "npt" "nvt" "npt(q)" "nvt(q)"

def dashRow : String := String.mk (List.replicate 80 '-')

/-- One data row.  The source indexes `status_counts["npt"]["completed"]`
etc. directly; on every table produced by `analyze_calculations` both
ensemble keys are always present (see `calcWF` below), so the `getD`
default is unreachable there. -/
def rowFor (name : String) (temperature : Int) (et : EnsTable) : String :=
  let nptSC := (alGet? "npt" et).getD ⟨0, 0⟩
  let nvtSC := (alGet? "nvt" et).getD ⟨0, 0⟩
  formatRow name (toString temperature) (toString nptSC.completed) (toString nvtSC.completed)
    (toString nptSC.not_started) (toString nvtSC.not_started)

/-- `sorted(temperatures.items(), key=lambda x: x[0])`. -/
def sortTemps (tt : TempTable) : TempTable :=
  sortBy Prod.fst tt

/-- The inner `for i, (temperature, status_counts) in enumerate(...)` loop of
`print_summary`, plus the trailing `print()`: the structure name only on row
`i = 0`, blank afterwards. -/
def structBlock (name : String) (tt : TempTable) : List String :=
  ((sortTemps tt).enum.map
    (fun p => if p.1 = 0 then rowFor name p.2.1 p.2.2 else rowFor "" p.2.1 p.2.2)) ++ [""]

/-- One per-functional block: header lines then every structure's rows in
insertion order. -/
def methodBlock (functional : String) (structures : StructTable) : List String :=
  ("Functional: " ++ functional ++ "\n") :: headerRow :: dashRow ::
    (structures.map (fun q => structBlock q.1 q.2)).flatten

/-- `print_summary(calculations)` as the list of strings printed (one
element per `print` call). -/
def print_summary (calculations : CalcTable) : List String :=
  (calculations.map (fun q => methodBlock q.1 q.2)).flatten

/-- Every ensemble dict reachable in the table has exactly the keys
`["npt", "nvt"]` in that order — the invariant `analyze_calculations`
maintains from the lazy creation of `freshEns` entries. -/
def calcWF (tbl : CalcTable) : Prop :=
  ∀ m st, alGet? m tbl = some st →
    ∀ s tt, alGet? s st = some tt →
      ∀ t et, alGet? t tt = some et → et.map Prod.fst = ["npt", "nvt"]

/-- Completed/not-started tallies one calculation directory contributes:
one increment per resolved iteration, keyed by `get_job_status`. -/
def dirTally (files : List String) : StatusCounts :=
  ⟨(resolveIterations files).countP (fun n => get_job_status files n == "completed"),
   (resolveIterations files).countP (fun n => get_job_status files n == "not_started")⟩

/-- The ensemble table that `ensureEntry` installs at `[m][s][t]`: the
existing one if the temperature key is present, else a fresh zero table. -/
def ensAt (tbl : CalcTable) (m s : String) (t : Int) : EnsTable :=
  (alGet? t ((alGet? s ((alGet? m tbl).getD [])).getD [])).getD freshEns

/-- The pure effect of one `+= 1` on a tally, keyed by the status string
(only ever applied to the two strings `get_job_status` can return). -/
def bumpSC (sc : StatusCounts) (status : String) : StatusCounts :=
  if status = "completed" then ⟨sc.completed + 1, sc.not_started⟩
  else ⟨sc.completed, sc.not_started + 1⟩

/-! ## Lemmas about association lists -/

section AList

variable {κ ν : Type} [DecidableEq κ]

@[simp] theorem alGet?_nil (k : κ) : alGet? k ([] : List (κ × ν)) = none := rfl

theorem alGet?_cons (k k' : κ) (v : ν) (rest : List (κ × ν)) :
    alGet? k ((k', v) :: rest) = if k = k' then some v else alGet? k rest := rfl

@[simp] theorem alGet?_alSet_self (k : κ) (v : ν) (l : List (κ × ν)) :
    alGet? k (alSet k v l) = some v := by
  induction l with
  | nil => simp [alSet, alGet?]
  | cons p rest ih =>
    obtain ⟨k', v'⟩ := p
    by_cases h : k = k'
    · simp [alSet, h, alGet?]
    · simp [alSet, h, alGet?, ih]

theorem alGet?_alSet_ne (k'' k : κ) (v : ν) (l : List (κ × ν)) (h : k'' ≠ k) :
    alGet? k'' (alSet k v l) = alGet? k'' l := by
  induction l with
  | nil => simp [alSet, alGet?, h]
  | cons p rest ih =>
    obtain ⟨k', v'⟩ := p
    by_cases hk : k = k'
    · subst hk
      simp [alSet, alGet?, h]
    · simp [alSet, hk, alGet?, ih]

theorem alSet_keysMap (k : κ) (v v0 : ν) (l : List (κ × ν)) (h : alGet? k l = some v0) :
    (alSet k v l).map Prod.fst = l.map Prod.fst := by
  induction l with
  | nil => simp [alGet?] at h
  | cons p rest ih =>
    obtain ⟨k', v'⟩ := p
    by_cases hk : k = k'
    · subst hk
      simp [alSet]
    · rw [alGet?_cons, if_neg hk] at h
      simp [alSet, hk, ih h]

theorem alGet?_eq_none_of_not_mem (k : κ) (l : List (κ × ν)) (h : k ∉ l.map Prod.fst) :
    alGet? k l = none := by
  induction l with
  | nil => rfl
  | cons p rest ih =>
    obtain ⟨k', v'⟩ := p
    simp only [List.map_cons, List.mem_cons] at h
    push_neg at h
    rw [alGet?_cons, if_neg h.1]
    exact ih h.2

theorem alGet?_isSome_of_mem (k : κ) (l : List (κ × ν)) (h : k ∈ l.map Prod.fst) :
    ∃ v, alGet? k l = some v := by
  induction l with
  | nil => simp at h
  | cons p rest ih =>
    obtain ⟨k', v'⟩ := p
    rw [alGet?_cons]
    by_cases hk : k = k'
    · exact ⟨v', if_pos hk ▸ rfl⟩
    · rw [if_neg hk]
      simp only [List.map_cons, List.mem_cons] at h
      exact ih (h.resolve_left hk)

end AList

/-! ## Lemmas about `sortBy` and `dedupKeep` -/

section Sorting

variable {α κ : Type} [LinearOrder κ] (key : α → κ)

theorem mem_insertSortedBy (x a : α) (l : List α) :
    a ∈ insertSortedBy key x l ↔ a = x ∨ a ∈ l := by
  induction l with
  | nil => simp [insertSortedBy]
  | cons y ys ih =>
    by_cases h : key x ≤ key y
    · simp [insertSortedBy, h]
    · simp only [insertSortedBy, if_neg h, List.mem_cons, ih]
      tauto

theorem perm_insertSortedBy (x : α) (l : List α) : List.Perm (insertSortedBy key x l) (x :: l) := by
  induction l with
  | nil => exact List.Perm.refl _
  | cons y ys ih =>
    by_cases h : key x ≤ key y
    · simp [insertSortedBy, h]
    · simpa [insertSortedBy, h] using (ih.cons y).trans (List.Perm.swap x y ys)

theorem perm_sortBy (l : List α) : List.Perm (sortBy key l) l := by
  induction l with
  | nil => exact List.Perm.refl _
  | cons x xs ih =>
    exact (perm_insertSortedBy key x (sortBy key xs)).trans (ih.cons x)

theorem pairwise_insertSortedBy (x : α) (l : List α)
    (h : l.Pairwise (fun a b => key a ≤ key b)) :
    (insertSortedBy key x l).Pairwise (fun a b => key a ≤ key b) := by
  induction l with
  | nil => simp [insertSortedBy]
  | cons y ys ih =>
    rcases List.pairwise_cons.mp h with ⟨hy, hys⟩
    by_cases hxy : key x ≤ key y
    · rw [insertSortedBy, if_pos hxy]
      refine List.pairwise_cons.mpr ⟨?_, h⟩
      intro b hb
      rcases List.mem_cons.mp hb with rfl | hb
      · exact hxy
      · exact hxy.trans (hy b hb)
    · rw [insertSortedBy, if_neg hxy]
      refine List.pairwise_cons.mpr ⟨?_, ih hys⟩
      intro b hb
      rcases (mem_insertSortedBy key x b ys).mp hb with rfl | hb
      · exact le_of_not_le hxy
      · exact hy b hb

theorem pairwise_sortBy (l : List α) :
    (sortBy key l).Pairwise (fun a b => key a ≤ key b) := by
  induction l with
  | nil => simp [sortBy]
  | cons x xs ih => exact pairwise_insertSortedBy key x (sortBy key xs) ih

end Sorting

theorem mem_dedupKeep_aux (l : List Nat) :
    ∀ (acc : List Nat) (a : Nat),
      a ∈ l.foldl (fun acc n => if n ∈ acc then acc else acc ++ [n]) acc ↔ a ∈ acc ∨ a ∈ l := by
  induction l with
  | nil => simp
  | cons x xs ih =>
    intro acc a
    simp only [List.foldl_cons]
    by_cases hx : x ∈ acc
    · rw [if_pos hx, ih]
      constructor
      · rintro (h | h)
        · exact Or.inl h
        · exact Or.inr (List.mem_cons_of_mem x h)
      · rintro (h | h)
        · exact Or.inl h
        · rcases List.mem_cons.mp h with rfl | h
          · exact Or.inl hx
          · exact Or.inr h
    · rw [if_neg hx, ih]
      simp only [List.mem_append, List.mem_singleton, List.mem_cons]
      tauto

theorem nodup_dedupKeep_aux (l : List Nat) :
    ∀ acc : List Nat, acc.Nodup →
      (l.foldl (fun acc n => if n ∈ acc then acc else acc ++ [n]) acc).Nodup := by
  induction l with
  | nil => intro acc h; simpa using h
  | cons x xs ih =>
    intro acc hacc
    simp only [List.foldl_cons]
    by_cases hx : x ∈ acc
    · rw [if_pos hx]; exact ih acc hacc
    · rw [if_neg hx]
      exact ih (acc ++ [x]) (by simp [List.nodup_append, hacc, hx])

theorem mem_dedupKeep (l : List Nat) (a : Nat) : a ∈ dedupKeep l ↔ a ∈ l := by
  rw [dedupKeep, mem_dedupKeep_aux]
  simp

theorem nodup_dedupKeep (l : List Nat) : (dedupKeep l).Nodup :=
  nodup_dedupKeep_aux l [] List.nodup_nil

/-! ## Lemmas about the nested table -/

theorem cellOf_setCell (tbl : CalcTable) (m s : String) (t : Int) (et : EnsTable) (ens : String) :
    cellOf (setCell tbl m s t et) m s t ens = alGet? ens et := by
  simp [cellOf, setCell]

theorem calcWF_nil : calcWF [] := by
  intro m st h
  simp at h

theorem ensureEntry_eq (tbl : CalcTable) (m s : String) (t : Int) :
    ensureEntry tbl m s t = setCell tbl m s t (ensAt tbl m s t) := rfl

theorem calcWF_setCell (tbl : CalcTable) (m s : String) (t : Int) (et : EnsTable)
    (hWF : calcWF tbl) (hkeys : et.map Prod.fst = ["npt", "nvt"]) :
    calcWF (setCell tbl m s t et) := by
  intro m' st' hm' s' tt' hs' t' et' ht'
  simp only [setCell] at hm'
  by_cases hmm : m' = m
  · subst hmm
    rw [alGet?_alSet_self] at hm'
    cases hm'
    by_cases hss : s' = s
    · subst hss
      rw [alGet?_alSet_self] at hs'
      cases hs'
      by_cases htt : t' = t
      · subst htt
        rw [alGet?_alSet_self] at ht'
        cases ht'
        exact hkeys
      · rw [alGet?_alSet_ne t' t et _ htt] at ht'
        cases hm0 : alGet? m' tbl with
        | none => simp [hm0] at ht'
        | some st0 =>
          simp only [hm0, Option.getD_some] at ht'
          cases hs0 : alGet? s' st0 with
          | none => simp [hs0] at ht'
          | some tt0 =>
            simp only [hs0, Option.getD_some] at ht'
            exact hWF m' st0 hm0 s' tt0 hs0 t' et' ht'
    · rw [alGet?_alSet_ne s' s _ _ hss] at hs'
      cases hm0 : alGet? m' tbl with
      | none => simp [hm0] at hs'
      | some st0 =>
        simp only [hm0, Option.getD_some] at hs'
        exact hWF m' st0 hm0 s' tt' hs' t' et' ht'
  · rw [alGet?_alSet_ne m' m _ _ hmm] at hm'
    exact hWF m' st' hm' s' tt' hs' t' et' ht'

theorem ensAt_keys (tbl : CalcTable) (m s : String) (t : Int) (hWF : calcWF tbl) :
    (ensAt tbl m s t).map Prod.fst = ["npt", "nvt"] := by
  unfold ensAt
  cases hm0 : alGet? m tbl with
  | none => simp [freshEns]
  | some st0 =>
    simp only [Option.getD_some]
    cases hs0 : alGet? s st0 with
    | none => simp [freshEns]
    | some tt0 =>
      simp only [Option.getD_some]
      cases ht0 : alGet? t tt0 with
      | none => simp [freshEns]
      | some et0 =>
        simpa using hWF m st0 hm0 s tt0 hs0 t et0 ht0

theorem alGet?_ensAt (tbl : CalcTable) (m s : String) (t : Int) (ens : String)
    (hWF : calcWF tbl) (hens : ens = "npt" ∨ ens = "nvt") :
    alGet? ens (ensAt tbl m s t) = some ((cellOf tbl m s t ens).getD ⟨0, 0⟩) := by
  unfold ensAt
  cases hm0 : alGet? m tbl with
  | none =>
    rcases hens with rfl | rfl <;> simp [freshEns, alGet?, cellOf, hm0]
  | some st0 =>
    cases hs0 : alGet? s st0 with
    | none =>
      rcases hens with rfl | rfl <;> simp [freshEns, alGet?, cellOf, hm0, hs0]
    | some tt0 =>
      cases ht0 : alGet? t tt0 with
      | none =>
        rcases hens with rfl | rfl <;> simp [freshEns, alGet?, cellOf, hm0, hs0, ht0]
      | some et0 =>
        have hkeys := hWF m st0 hm0 s tt0 hs0 t et0 ht0
        have hmem : ens ∈ et0.map Prod.fst := by
          rw [hkeys]; rcases hens with rfl | rfl <;> simp
        obtain ⟨v, hv⟩ := alGet?_isSome_of_mem ens et0 hmem
        simp [cellOf, hm0, hs0, ht0, hv]

theorem calcWF_ensureEntry (tbl : CalcTable) (m s : String) (t : Int) (hWF : calcWF tbl) :
    calcWF (ensureEntry tbl m s t) := by
  rw [ensureEntry_eq]
  exact calcWF_setCell tbl m s t _ hWF (ensAt_keys tbl m s t hWF)

theorem cellOf_ensureEntry (tbl : CalcTable) (m s : String) (t : Int) (ens : String)
    (hWF : calcWF tbl) (hens : ens = "npt" ∨ ens = "nvt") :
    cellOf (ensureEntry tbl m s t) m s t ens =
      some ((cellOf tbl m s t ens).getD ⟨0, 0⟩) := by
  rw [ensureEntry_eq, cellOf_setCell]
  exact alGet?_ensAt tbl m s t ens hWF hens

/-! ## Lemmas about `bumpCell` and the iteration loop -/

theorem cellOf_chain {tbl : CalcTable} {m s : String} {t : Int} {ens : String}
    {sc : StatusCounts} (h : cellOf tbl m s t ens = some sc) :
    ∃ st tt et, alGet? m tbl = some st ∧ alGet? s st = some tt ∧
      alGet? t tt = some et ∧ alGet? ens et = some sc := by
  unfold cellOf at h
  cases hm0 : alGet? m tbl with
  | none => simp [hm0] at h
  | some st =>
    simp only [hm0, Option.bind_eq_bind, Option.some_bind] at h
    cases hs0 : alGet? s st with
    | none => simp [hs0] at h
    | some tt =>
      simp only [hs0, Option.bind_eq_bind, Option.some_bind] at h
      cases ht0 : alGet? t tt with
      | none => simp [ht0] at h
      | some et =>
        simp only [ht0, Option.bind_eq_bind, Option.some_bind] at h
        exact ⟨st, tt, et, rfl, hs0, ht0, h⟩

theorem bumpSC_completed (sc : StatusCounts) :
    bumpSC sc "completed" = ⟨sc.completed + 1, sc.not_started⟩ := by
  simp [bumpSC]

theorem bumpSC_not_started (sc : StatusCounts) :
    bumpSC sc "not_started" = ⟨sc.completed, sc.not_started + 1⟩ := by
  have h : ("not_started" : String) ≠ "completed" := by decide
  simp [bumpSC, h]

theorem bumpStatus_eq (sc : StatusCounts) (status : String)
    (h : status = "completed" ∨ status = "not_started") :
    bumpStatus sc status = some (bumpSC sc status) := by
  have hne : ("not_started" : String) ≠ "completed" := by decide
  rcases h with rfl | rfl <;> simp [bumpStatus, bumpSC, hne]

theorem bumpCell_ok (tbl : CalcTable) (m s : String) (t : Int) (ens status : String)
    (sc : StatusCounts) (hc : cellOf tbl m s t ens = some sc)
    (hst : status = "completed" ∨ status = "not_started") :
    ∃ tbl', bumpCell tbl m s t ens status = some tbl' ∧
      cellOf tbl' m s t ens = some (bumpSC sc status) ∧
      (calcWF tbl → calcWF tbl') := by
  obtain ⟨st, tt, et, hm0, hs0, ht0, he0⟩ := cellOf_chain hc
  refine ⟨setCell tbl m s t (alSet ens (bumpSC sc status) et), ?_, ?_, ?_⟩
  · unfold bumpCell
    simp [hm0, hs0, ht0, he0, bumpStatus_eq sc status hst]
  · rw [cellOf_setCell, alGet?_alSet_self]
  · intro hWF
    apply calcWF_setCell tbl m s t _ hWF
    rw [alSet_keysMap ens _ sc et he0]
    exact hWF m st hm0 s tt hs0 t et ht0

theorem bumpCell_none (tbl : CalcTable) (m s : String) (t : Int) (ens status : String)
    (h : cellOf tbl m s t ens = none) :
    bumpCell tbl m s t ens status = none := by
  unfold cellOf at h
  unfold bumpCell
  cases hm0 : alGet? m tbl with
  | none => simp
  | some st =>
    simp only [hm0, Option.bind_eq_bind, Option.some_bind] at h ⊢
    cases hs0 : alGet? s st with
    | none => simp
    | some tt =>
      simp only [hs0, Option.bind_eq_bind, Option.some_bind] at h ⊢
      cases ht0 : alGet? t tt with
      | none => simp
      | some et =>
        simp only [ht0, Option.bind_eq_bind, Option.some_bind] at h ⊢
        simp [h]

theorem get_job_status_cases (files : List String) (n : Nat) :
    get_job_status files n = "completed" ∨ get_job_status files n = "not_started" := by
  by_cases h : (format02 n ++ "_aimd_REPORT") ∈ files
  · exact Or.inl (by simp [get_job_status, h])
  · exact Or.inr (by simp [get_job_status, h])

theorem iterFold_ok (m s : String) (t : Int) (ens : String) (files : List String) :
    ∀ (iters : List Nat) (tbl : CalcTable) (sc : StatusCounts),
      cellOf tbl m s t ens = some sc → calcWF tbl →
      ∃ tbl',
        iters.foldlM (fun c n => bumpCell c m s t ens (get_job_status files n)) tbl =
          some tbl' ∧
        cellOf tbl' m s t ens = some
          ⟨sc.completed + iters.countP (fun n => get_job_status files n == "completed"),
           sc.not_started + iters.countP (fun n => get_job_status files n == "not_started")⟩ ∧
        calcWF tbl' := by
  intro iters
  induction iters with
  | nil =>
    intro tbl sc hc hWF
    refine ⟨tbl, rfl, ?_, hWF⟩
    simpa using hc
  | cons n rest ih =>
    intro tbl sc hc hWF
    have hst := get_job_status_cases files n
    obtain ⟨tbl1, hb, hc1, hWF1imp⟩ := bumpCell_ok tbl m s t ens _ sc hc hst
    obtain ⟨tbl', hfold, hc', hWF'⟩ := ih tbl1 (bumpSC sc (get_job_status files n)) hc1 (hWF1imp hWF)
    refine ⟨tbl', ?_, ?_, hWF'⟩
    · rw [List.foldlM_cons, hb]
      simpa using hfold
    · rw [hc']
      rcases hst with h | h
      · have e2 : ((("completed" : String)) == "not_started") = false := by decide
        simp [h, List.countP_cons, bumpSC_completed, e2, StatusCounts.mk.injEq]
        omega
      · have e2 : ((("not_started" : String)) == "completed") = false := by decide
        simp [h, List.countP_cons, bumpSC_not_started, e2, StatusCounts.mk.injEq]
        omega

/-! ## Lemmas about `stepDir` and the `Except` fold -/

theorem except_ok_bind {ε β γ : Type} (b : β) (g : β → Except ε γ) :
    (Except.ok b >>= g) = g b := rfl

theorem except_error_bind {ε β γ : Type} (e : ε) (g : β → Except ε γ) :
    (Except.error e >>= g) = Except.error e := rfl

theorem bumpCell_WF (tbl : CalcTable) (m s : String) (t : Int) (ens status : String)
    (tbl' : CalcTable) (hWF : calcWF tbl) (h : bumpCell tbl m s t ens status = some tbl') :
    calcWF tbl' := by
  unfold bumpCell at h
  cases hm0 : alGet? m tbl with
  | none => simp [hm0] at h
  | some st =>
    simp only [hm0, Option.bind_eq_bind, Option.some_bind] at h
    cases hs0 : alGet? s st with
    | none => simp [hs0] at h
    | some tt =>
      simp only [hs0, Option.bind_eq_bind, Option.some_bind] at h
      cases ht0 : alGet? t tt with
      | none => simp [ht0] at h
      | some et =>
        simp only [ht0, Option.bind_eq_bind, Option.some_bind] at h
        cases he0 : alGet? ens et with
        | none => simp [he0] at h
        | some sc =>
          simp only [he0, Option.bind_eq_bind, Option.some_bind] at h
          cases hb : bumpStatus sc status with
          | none => simp [hb] at h
          | some sc' =>
            simp only [hb, Option.bind_eq_bind, Option.some_bind, Option.some.injEq] at h
            subst h
            apply calcWF_setCell tbl m s t _ hWF
            rw [alSet_keysMap ens sc' sc et he0]
            exact hWF m st hm0 s tt hs0 t et ht0

theorem iterFold_WF (m s : String) (t : Int) (ens : String) (files : List String) :
    ∀ (iters : List Nat) (tbl tbl' : CalcTable), calcWF tbl →
      iters.foldlM (fun c n => bumpCell c m s t ens (get_job_status files n)) tbl =
        some tbl' → calcWF tbl' := by
  intro iters
  induction iters with
  | nil =>
    intro tbl tbl' hWF h
    rw [List.foldlM_nil] at h
    cases h
    exact hWF
  | cons n rest ih =>
    intro tbl tbl' hWF h
    rw [List.foldlM_cons] at h
    cases hb : bumpCell tbl m s t ens (get_job_status files n) with
    | none => rw [hb] at h; simp at h
    | some tbl1 =>
      rw [hb] at h
      simp only [Option.bind_eq_bind, Option.some_bind] at h
      exact ih tbl1 tbl' (bumpCell_WF tbl m s t ens _ tbl1 hWF hb) h

theorem stepDir_ok_of_valid (valid : List String) (tbl : CalcTable) (d : WalkDir) (t : Int)
    (hWF : calcWF tbl) (hpos : "POSCAR" ∈ d.files) (hlen : d.path.length ≥ 6)
    (ht : pyIntParse (partFromEnd d.path 1) = some t)
    (hvalid : partFromEnd d.path 5 ∈ valid)
    (hens : partFromEnd d.path 3 = "npt" ∨ partFromEnd d.path 3 = "nvt") :
    ∃ tbl', stepDir valid tbl d = Except.ok tbl' ∧ calcWF tbl' ∧
      cellOf tbl' (partFromEnd d.path 4) (partFromEnd d.path 5) t (partFromEnd d.path 3) =
        some ⟨((cellOf tbl (partFromEnd d.path 4) (partFromEnd d.path 5) t
                  (partFromEnd d.path 3)).getD ⟨0, 0⟩).completed + (dirTally d.files).completed,
              ((cellOf tbl (partFromEnd d.path 4) (partFromEnd d.path 5) t
                  (partFromEnd d.path 3)).getD ⟨0, 0⟩).not_started +
                (dirTally d.files).not_started⟩ := by
  have hWF1 := calcWF_ensureEntry tbl (partFromEnd d.path 4) (partFromEnd d.path 5) t hWF
  have hc1 := cellOf_ensureEntry tbl (partFromEnd d.path 4) (partFromEnd d.path 5) t
    (partFromEnd d.path 3) hWF hens
  obtain ⟨tbl', hfold, hc', hWF'⟩ :=
    iterFold_ok (partFromEnd d.path 4) (partFromEnd d.path 5) t (partFromEnd d.path 3)
      d.files (resolveIterations d.files)
      (ensureEntry tbl (partFromEnd d.path 4) (partFromEnd d.path 5) t) _ hc1 hWF1
  refine ⟨tbl', ?_, hWF', ?_⟩
  · simp [stepDir, hpos, hlen, ht, hvalid, hfold]
  · rw [hc']
    simp [dirTally]

theorem stepDir_skip_shallow (valid : List String) (tbl : CalcTable) (d : WalkDir)
    (hlen : d.path.length < 6) :
    stepDir valid tbl d = Except.ok tbl := by
  have h6 : ¬ d.path.length ≥ 6 := by omega
  by_cases hp : "POSCAR" ∈ d.files <;> simp [stepDir, hp, h6]

theorem stepDir_skip_invalid (valid : List String) (tbl : CalcTable) (d : WalkDir) (t : Int)
    (hpos : "POSCAR" ∈ d.files) (hlen : d.path.length ≥ 6)
    (ht : pyIntParse (partFromEnd d.path 1) = some t)
    (hnv : partFromEnd d.path 5 ∉ valid) :
    stepDir valid tbl d = Except.ok tbl := by
  simp [stepDir, hpos, hlen, ht, hnv]

theorem stepDir_error_badtemp (valid : List String) (tbl : CalcTable) (d : WalkDir)
    (hpos : "POSCAR" ∈ d.files) (hlen : d.path.length ≥ 6)
    (hbad : pyIntParse (partFromEnd d.path 1) = none) :
    stepDir valid tbl d =
      Except.error ("invalid literal for int() with base 10: " ++ partFromEnd d.path 1) := by
  simp [stepDir, hpos, hlen, hbad]

theorem stepDir_error_badens (valid : List String) (tbl : CalcTable) (d : WalkDir) (t : Int)
    (hWF : calcWF tbl) (hpos : "POSCAR" ∈ d.files) (hlen : d.path.length ≥ 6)
    (ht : pyIntParse (partFromEnd d.path 1) = some t)
    (hvalid : partFromEnd d.path 5 ∈ valid)
    (hens1 : partFromEnd d.path 3 ≠ "npt") (hens2 : partFromEnd d.path 3 ≠ "nvt")
    (hiter : resolveIterations d.files ≠ []) :
    stepDir valid tbl d = Except.error ("KeyError: " ++ partFromEnd d.path 3) := by
  have hcell : cellOf (ensureEntry tbl (partFromEnd d.path 4) (partFromEnd d.path 5) t)
      (partFromEnd d.path 4) (partFromEnd d.path 5) t (partFromEnd d.path 3) = none := by
    rw [ensureEntry_eq, cellOf_setCell]
    apply alGet?_eq_none_of_not_mem
    rw [ensAt_keys tbl (partFromEnd d.path 4) (partFromEnd d.path 5) t hWF]
    simp [hens1, hens2]
  obtain ⟨n, rest, hnr⟩ := List.exists_cons_of_ne_nil hiter
  have hfold : (resolveIterations d.files).foldlM
      (fun c k => bumpCell c (partFromEnd d.path 4) (partFromEnd d.path 5) t
        (partFromEnd d.path 3) (get_job_status d.files k))
      (ensureEntry tbl (partFromEnd d.path 4) (partFromEnd d.path 5) t) = none := by
    rw [hnr, List.foldlM_cons,
      bumpCell_none (ensureEntry tbl (partFromEnd d.path 4) (partFromEnd d.path 5) t)
        (partFromEnd d.path 4) (partFromEnd d.path 5) t (partFromEnd d.path 3)
        (get_job_status d.files n) hcell]
    rfl
  simp [stepDir, hpos, hlen, ht, hvalid, hfold]

theorem stepDir_WF (valid : List String) (b : CalcTable) (d : WalkDir) (b' : CalcTable)
    (hWF : calcWF b) (h : stepDir valid b d = Except.ok b') : calcWF b' := by
  unfold stepDir at h
  by_cases hp : "POSCAR" ∈ d.files
  · rw [if_pos hp] at h
    by_cases hl : d.path.length ≥ 6
    · rw [if_pos hl] at h
      cases ht : pyIntParse (partFromEnd d.path 1) with
      | none =>
        simp only [ht] at h
        exact absurd h (by simp)
      | some t =>
        simp only [ht] at h
        by_cases hv : partFromEnd d.path 5 ∉ valid
        · rw [if_pos hv] at h
          cases h
          exact hWF
        · rw [if_neg hv] at h
          cases hfold : (resolveIterations d.files).foldlM
              (fun c n => bumpCell c (partFromEnd d.path 4) (partFromEnd d.path 5) t
                (partFromEnd d.path 3) (get_job_status d.files n))
              (ensureEntry b (partFromEnd d.path 4) (partFromEnd d.path 5) t) with
          | none =>
            simp only [hfold] at h
            exact absurd h (by simp)
          | some c =>
            simp only [hfold] at h
            cases h
            exact iterFold_WF (partFromEnd d.path 4) (partFromEnd d.path 5) t
              (partFromEnd d.path 3) d.files (resolveIterations d.files) _ _
              (calcWF_ensureEntry b (partFromEnd d.path 4) (partFromEnd d.path 5) t hWF) hfold
    · rw [if_neg hl] at h
      cases h
      exact hWF
  · rw [if_neg hp] at h
    cases h
    exact hWF

theorem exceptFold_mem {α β : Type} (f : β → α → Except String β) (P : β → Prop)
    (hP : ∀ b a b', P b → f b a = Except.ok b' → P b') :
    ∀ (l : List α) (b out : β), P b → l.foldlM f b = Except.ok out →
      ∀ a ∈ l, ∃ c c', P c ∧ f c a = Except.ok c' := by
  intro l
  induction l with
  | nil =>
    intro b out hPb h a ha
    simp at ha
  | cons x xs ih =>
    intro b out hPb h a ha
    rw [List.foldlM_cons] at h
    cases hfx : f b x with
    | error e =>
      rw [hfx, except_error_bind] at h
      exact absurd h (by simp)
    | ok b1 =>
      rw [hfx, except_ok_bind] at h
      rcases List.mem_cons.mp ha with rfl | ha'
      · exact ⟨b, b1, hPb, hfx⟩
      · exact ih b1 out (hP b x b1 hPb hfx) h a ha'

theorem exceptFold_append {α β : Type} (f : β → α → Except String β) (l1 l2 : List α) (b : β) :
    (l1 ++ l2).foldlM f b = (l1.foldlM f b) >>= fun b' => l2.foldlM f b' := by
  induction l1 generalizing b with
  | nil => simp [List.foldlM_nil, except_ok_bind]
  | cons x xs ih =>
    rw [List.cons_append, List.foldlM_cons, List.foldlM_cons]
    cases hfx : f b x with
    | error e => rfl
    | ok b1 => simp [ih b1]

/-! ## Characterization of `resolveIterations` -/

theorem mem_resolveIterations (files : List String) (n : Nat) :
    n ∈ resolveIterations files ↔ ∃ f ∈ files, matchesAimd f = true ∧ iterOf f = n := by
  unfold resolveIterations
  rw [(perm_sortBy id _).mem_iff, mem_dedupKeep]
  simp only [List.mem_map, List.mem_filter]
  constructor
  · rintro ⟨f, ⟨hf, hm⟩, rfl⟩
    exact ⟨f, hf, hm, rfl⟩
  · rintro ⟨f, hf, hm, rfl⟩
    exact ⟨f, ⟨hf, hm⟩, rfl⟩

theorem sorted_resolveIterations (files : List String) :
    (resolveIterations files).Pairwise (· < ·) := by
  unfold resolveIterations
  have hle := pairwise_sortBy (id : Nat → Nat)
    (dedupKeep ((files.filter fun f => matchesAimd f).map iterOf))
  have hnd : (sortBy id
      (dedupKeep ((files.filter fun f => matchesAimd f).map iterOf))).Nodup := by
    rw [(perm_sortBy id _).nodup_iff]
    exact nodup_dedupKeep _
  exact (hle.and hnd).imp (fun hab => lt_of_le_of_ne hab.1 hab.2)

theorem resolveIterations_eq_nil (files : List String)
    (h : ∀ f ∈ files, matchesAimd f = false) : resolveIterations files = [] := by
  unfold resolveIterations
  have hf : files.filter (fun f => matchesAimd f) = [] :=
    List.filter_eq_nil_iff.mpr (by intro a ha; simp [h a ha])
  rw [hf]
  rfl

theorem resolveIterations_ne_nil (files : List String) (f : String)
    (hf : f ∈ files) (hm : matchesAimd f = true) : resolveIterations files ≠ [] := by
  intro h
  have hmem := (mem_resolveIterations files (iterOf f)).mpr ⟨f, hf, hm, rfl⟩
  rw [h] at hmem
  simp at hmem

/-! ## Characterization of `get_valid_cif_files` -/

theorem mem_addValidFile (acc : List String) (f b : String) :
    b ∈ addValidFile acc f ↔ b ∈ acc ∨
      ((endsWithStr f ".cif" && !containsSub "_dont_use".toList f.toList) = true ∧
        splitextBase f = b) := by
  unfold addValidFile
  by_cases hc : (endsWithStr f ".cif" && !containsSub "_dont_use".toList f.toList) = true
  · rw [if_pos hc]
    by_cases hb : splitextBase f ∈ acc
    · rw [if_pos hb]
      simp only [hc, true_and]
      constructor
      · exact Or.inl
      · rintro (h | rfl)
        · exact h
        · exact hb
    · rw [if_neg hb]
      simp only [hc, true_and, List.mem_append, List.mem_singleton]
      constructor
      · rintro (h | rfl)
        · exact Or.inl h
        · exact Or.inr rfl
      · rintro (h | rfl)
        · exact Or.inl h
        · exact Or.inr rfl
  · rw [if_neg hc]
    constructor
    · exact Or.inl
    · rintro (h | ⟨hcond, rfl⟩)
      · exact h
      · exact absurd hcond hc

theorem nodup_addValidFile (acc : List String) (f : String) (h : acc.Nodup) :
    (addValidFile acc f).Nodup := by
  unfold addValidFile
  by_cases hc : (endsWithStr f ".cif" && !containsSub "_dont_use".toList f.toList) = true
  · rw [if_pos hc]
    by_cases hb : splitextBase f ∈ acc
    · rw [if_pos hb]; exact h
    · rw [if_neg hb]; simp [List.nodup_append, h, hb]
  · rw [if_neg hc]; exact h

theorem mem_filesFold (files : List String) :
    ∀ (acc : List String) (b : String),
      b ∈ files.foldl addValidFile acc ↔ b ∈ acc ∨
        ∃ f ∈ files,
          (endsWithStr f ".cif" && !containsSub "_dont_use".toList f.toList) = true ∧
          splitextBase f = b := by
  induction files with
  | nil => simp
  | cons f fs ih =>
    intro acc b
    rw [List.foldl_cons, ih, mem_addValidFile]
    constructor
    · rintro ((h | ⟨hc, rfl⟩) | ⟨g, hg, hgc, rfl⟩)
      · exact Or.inl h
      · exact Or.inr ⟨f, List.mem_cons_self f fs, hc, rfl⟩
      · exact Or.inr ⟨g, List.mem_cons_of_mem f hg, hgc, rfl⟩
    · rintro (h | ⟨g, hg, hgc, rfl⟩)
      · exact Or.inl (Or.inl h)
      · rcases List.mem_cons.mp hg with rfl | hg'
        · exact Or.inl (Or.inr ⟨hgc, rfl⟩)
        · exact Or.inr ⟨g, hg', hgc, rfl⟩

theorem nodup_filesFold (files : List String) :
    ∀ acc : List String, acc.Nodup → (files.foldl addValidFile acc).Nodup := by
  induction files with
  | nil => exact fun _ h => h
  | cons f fs ih =>
    intro acc h
    exact ih _ (nodup_addValidFile acc f h)

theorem mem_walkFold (walk : List WalkDir) :
    ∀ (acc : List String) (b : String),
      b ∈ walk.foldl (fun acc d => d.files.foldl addValidFile acc) acc ↔ b ∈ acc ∨
        ∃ d ∈ walk, ∃ f ∈ d.files,
          (endsWithStr f ".cif" && !containsSub "_dont_use".toList f.toList) = true ∧
          splitextBase f = b := by
  induction walk with
  | nil => simp
  | cons d ds ih =>
    intro acc b
    rw [List.foldl_cons, ih, mem_filesFold]
    constructor
    · rintro ((h | ⟨f, hf, hc, rfl⟩) | ⟨d', hd', f, hf, hc, rfl⟩)
      · exact Or.inl h
      · exact Or.inr ⟨d, List.mem_cons_self d ds, f, hf, hc, rfl⟩
      · exact Or.inr ⟨d', List.mem_cons_of_mem d hd', f, hf, hc, rfl⟩
    · rintro (h | ⟨d', hd', f, hf, hc, rfl⟩)
      · exact Or.inl (Or.inl h)
      · rcases List.mem_cons.mp hd' with rfl | hd''
        · exact Or.inl (Or.inr ⟨f, hf, hc, rfl⟩)
        · exact Or.inr ⟨d', hd'', f, hf, hc, rfl⟩

theorem nodup_walkFold (walk : List WalkDir) :
    ∀ acc : List String, acc.Nodup →
      (walk.foldl (fun acc d => d.files.foldl addValidFile acc) acc).Nodup := by
  induction walk with
  | nil => exact fun _ h => h
  | cons d ds ih =>
    intro acc h
    exact ih _ (nodup_filesFold d.files acc h)

/-! ## Lemmas about the report -/

theorem enumFrom_map_if_zero {α β : Type} (g fz : α → β) :
    ∀ (l : List α) (k : Nat),
      (List.enumFrom (k + 1) l).map (fun p => if p.1 = 0 then fz p.2 else g p.2) =
        l.map g := by
  intro l
  induction l with
  | nil => intro k; rfl
  | cons x xs ih =>
    intro k
    rw [List.enumFrom_cons, List.map_cons, List.map_cons]
    rw [if_neg (Nat.succ_ne_zero k)]
    rw [ih (k + 1)]

theorem structBlock_shape (name : String) (tt : TempTable) :
    structBlock name tt =
      match sortTemps tt with
      | [] => [""]
      | p :: rest => rowFor name p.1 p.2 :: (rest.map (fun q => rowFor "" q.1 q.2) ++ [""]) := by
  unfold structBlock
  cases hst : sortTemps tt with
  | nil => rfl
  | cons p rest =>
    rw [List.enum_cons, List.map_cons]
    rw [if_pos rfl]
    have hmap := enumFrom_map_if_zero (fun q : Int × EnsTable => rowFor "" q.1 q.2)
      (fun q : Int × EnsTable => rowFor name q.1 q.2) rest 0
    simp only [Nat.zero_add] at hmap
    rw [hmap]
    simp

/-! ## The claims -/

/-- C1: for every walked directory containing `POSCAR` whose path splits into
at least 6 segments, if the last segment does not parse as a base-10 integer,
the whole `analyze_calculations` run fails with an error — no table, partial
or otherwise, is produced; consequently the run can only succeed when every
such temperature segment parses as a base-10 integer. -/
theorem claim_C1_nonnumeric_temperature_aborts
    (walk : List WalkDir) (valid : List String) (d : WalkDir)
    (hd : d ∈ walk) (hpos : "POSCAR" ∈ d.files) (hlen : d.path.length ≥ 6)
    (hbad : pyIntParse (partFromEnd d.path 1) = none) :
    ∃ e, analyze_calculations walk valid = Except.error e := by
  cases hres : analyze_calculations walk valid with
  | error e => exact ⟨e, rfl⟩
  | ok out =>
    exfalso
    unfold analyze_calculations at hres
    obtain ⟨c, c', -, hstep⟩ := exceptFold_mem (stepDir valid) (fun _ => True)
      (fun _ _ _ _ _ => trivial) walk [] out trivial hres d hd
    rw [stepDir_error_badtemp valid c d hpos hlen hbad] at hstep
    exact Except.noConfusion hstep

/-- Witness for C1: a concrete walk whose only calculation directory has the
non-numeric temperature segment `hot`. -/
theorem claim_C1_witness :
    ∃ e, analyze_calculations
      [⟨["", "scan", "A", "PBE", "npt", "1.0", "hot"], ["POSCAR"]⟩] [] = Except.error e :=
  claim_C1_nonnumeric_temperature_aborts _ []
    ⟨["", "scan", "A", "PBE", "npt", "1.0", "hot"], ["POSCAR"]⟩
    (by decide) (by decide) (by decide) (by decide)

/-- C2: a walked calculation directory with a valid structure name, a numeric
temperature, an ensemble segment that is neither `"npt"` nor `"nvt"`, and at
least one iteration-pattern file (so that the ensemble value is actually used
as a table key) makes the whole run abort with a lookup failure. -/
theorem claim_C2_unknown_ensemble_key_error
    (walk : List WalkDir) (valid : List String) (d : WalkDir) (t : Int)
    (hd : d ∈ walk) (hpos : "POSCAR" ∈ d.files) (hlen : d.path.length ≥ 6)
    (ht : pyIntParse (partFromEnd d.path 1) = some t)
    (hvalid : partFromEnd d.path 5 ∈ valid)
    (hens1 : partFromEnd d.path 3 ≠ "npt") (hens2 : partFromEnd d.path 3 ≠ "nvt")
    (f : String) (hf : f ∈ d.files) (hmf : matchesAimd f = true) :
    ∃ e, analyze_calculations walk valid = Except.error e := by
  cases hres : analyze_calculations walk valid with
  | error e => exact ⟨e, rfl⟩
  | ok out =>
    exfalso
    unfold analyze_calculations at hres
    obtain ⟨c, c', hWFc, hstep⟩ := exceptFold_mem (stepDir valid) calcWF
      (fun b a b' hPb hok => stepDir_WF valid b a b' hPb hok) walk [] out calcWF_nil hres d hd
    rw [stepDir_error_badens valid c d t hWFc hpos hlen ht hvalid hens1 hens2
      (resolveIterations_ne_nil d.files f hf hmf)] at hstep
    exact Except.noConfusion hstep

/-- Witness for C2: ensemble segment `xxx` with one `00_aimd_log` iteration
file aborts the run. -/
theorem claim_C2_witness :
    ∃ e, analyze_calculations
      [⟨["", "scan", "A", "PBE", "xxx", "1.0", "300"], ["POSCAR", "00_aimd_log"]⟩] ["A"] =
        Except.error e :=
  claim_C2_unknown_ensemble_key_error _ ["A"]
    ⟨["", "scan", "A", "PBE", "xxx", "1.0", "300"], ["POSCAR", "00_aimd_log"]⟩ 300
    (by decide) (by decide) (by decide) (by decide) (by decide) (by decide) (by decide)
    "00_aimd_log" (by decide) (by decide)

/-- C3: `get_valid_cif_files` returns exactly the set of extension-stripped
base names of files whose name ends in `.cif` and does not contain
`_dont_use` — so the base name of any `X_dont_use.cif` never appears, and
each qualifying base name appears exactly once even when duplicate files
exist in different subdirectories (the result is duplicate-free). -/
theorem claim_C3_valid_cif_characterization (walk : List WalkDir) :
    (∀ b : String, b ∈ get_valid_cif_files walk ↔
      ∃ d ∈ walk, ∃ f ∈ d.files,
        (endsWithStr f ".cif" && !containsSub "_dont_use".toList f.toList) = true ∧
        splitextBase f = b) ∧
    (get_valid_cif_files walk).Nodup := by
  refine ⟨fun b => ?_, nodup_walkFold walk [] List.nodup_nil⟩
  unfold get_valid_cif_files
  rw [mem_walkFold]
  simp

/-- C4: a walked `POSCAR` directory of sufficient depth and numeric
temperature whose structure name is not in the valid set contributes nothing:
the analysis of any walk containing it equals the analysis of the same walk
without it. -/
theorem claim_C4_invalid_structure_skipped
    (valid : List String) (pre post : List WalkDir) (d : WalkDir) (t : Int)
    (hpos : "POSCAR" ∈ d.files) (hlen : d.path.length ≥ 6)
    (ht : pyIntParse (partFromEnd d.path 1) = some t)
    (hnv : partFromEnd d.path 5 ∉ valid) :
    analyze_calculations (pre ++ d :: post) valid =
      analyze_calculations (pre ++ post) valid := by
  unfold analyze_calculations
  rw [exceptFold_append, exceptFold_append]
  cases hpre : pre.foldlM (stepDir valid) [] with
  | error e => rfl
  | ok b =>
    rw [except_ok_bind, except_ok_bind, List.foldlM_cons,
      stepDir_skip_invalid valid b d t hpos hlen ht hnv, except_ok_bind]

/-- Witness for C4: a directory for structure `B` (not a valid name)
containing an iteration file contributes nothing. -/
theorem claim_C4_witness :
    analyze_calculations
      [⟨["", "scan", "B", "PBE", "npt", "1.0", "300"], ["POSCAR", "00_aimd_log"]⟩] ["A"] =
      analyze_calculations [] ["A"] :=
  claim_C4_invalid_structure_skipped ["A"] [] []
    ⟨["", "scan", "B", "PBE", "npt", "1.0", "300"], ["POSCAR", "00_aimd_log"]⟩ 300
    (by decide) (by decide) (by decide) (by decide)

/-- C5: a walked `POSCAR` directory whose path splits into fewer than 6
segments is skipped silently: the analysis of any walk containing it equals
the analysis of the same walk without it (no entries, no error). -/
theorem claim_C5_shallow_directory_skipped
    (valid : List String) (pre post : List WalkDir) (d : WalkDir)
    (_hpos : "POSCAR" ∈ d.files) (hlen : d.path.length < 6) :
    analyze_calculations (pre ++ d :: post) valid =
      analyze_calculations (pre ++ post) valid := by
  unfold analyze_calculations
  rw [exceptFold_append, exceptFold_append]
  cases hpre : pre.foldlM (stepDir valid) [] with
  | error e => rfl
  | ok b =>
    rw [except_ok_bind, except_ok_bind, List.foldlM_cons,
      stepDir_skip_shallow valid b d hlen, except_ok_bind]

/-- Witness for C5: a `POSCAR` directory only two segments deep (with a
non-numeric final segment, which must not matter) is ignored. -/
theorem claim_C5_witness :
    analyze_calculations [⟨["scan", "shallow"], ["POSCAR", "00_aimd_log"]⟩] ["A"] =
      analyze_calculations [] ["A"] :=
  claim_C5_shallow_directory_skipped ["A"] [] []
    ⟨["scan", "shallow"], ["POSCAR", "00_aimd_log"]⟩ (by decide) (by decide)

/-- C6: the resolved iteration sequence of a directory is strictly increasing
(sorted ascending with duplicates collapsed) and contains exactly the numbers
parsed from the leading two digits of filenames matching `^\d\d_aimd_`; on
the example files `00_aimd_log`, `00_aimd_REPORT`, `02_aimd_log` it is
exactly `[0, 2]`. -/
theorem claim_C6_iterations_sorted_dedup :
    (∀ files : List String,
      List.Sorted (· < ·) (resolveIterations files) ∧
      ∀ n : Nat, n ∈ resolveIterations files ↔
        ∃ f ∈ files, matchesAimd f = true ∧ iterOf f = n) ∧
    resolveIterations ["00_aimd_log", "00_aimd_REPORT", "02_aimd_log"] = [0, 2] := by
  refine ⟨fun files =>
    ⟨sorted_resolveIterations files, fun n => mem_resolveIterations files n⟩, ?_⟩
  rfl

/-- C7: `get_job_status` returns `"completed"` iff the file
`{N:02d}_aimd_REPORT` is present in the directory's file list, and
`"not_started"` iff it is absent — a pure existence check; concretely,
iteration 3 is `not_started` without `03_aimd_REPORT` and `completed` with
it. -/
theorem claim_C7_status_pure_existence :
    (∀ (files : List String) (n : Nat),
      (get_job_status files n = "completed" ↔ (format02 n ++ "_aimd_REPORT") ∈ files) ∧
      (get_job_status files n = "not_started" ↔ (format02 n ++ "_aimd_REPORT") ∉ files)) ∧
    get_job_status ["03_aimd_REPORT"] 3 = "completed" ∧
    get_job_status ["POSCAR"] 3 = "not_started" := by
  have hne : ("completed" : String) ≠ "not_started" := by decide
  refine ⟨fun files n => ?_, by rfl, by rfl⟩
  unfold get_job_status
  by_cases h : (format02 n ++ "_aimd_REPORT") ∈ files
  · simp [h, hne]
  · simp [h, hne.symm]

/-- C8: two walked calculation directories classifying to the same
(method, structure, temperature, ensemble) key but with different iteration
sets have their tallies summed into the one shared cell — the second does
not overwrite the first. -/
theorem claim_C8_counts_sum_not_overwrite
    (valid : List String) (d1 d2 : WalkDir) (t : Int)
    (h1p : "POSCAR" ∈ d1.files) (h1l : d1.path.length ≥ 6)
    (h1t : pyIntParse (partFromEnd d1.path 1) = some t)
    (h2p : "POSCAR" ∈ d2.files) (h2l : d2.path.length ≥ 6)
    (h2t : pyIntParse (partFromEnd d2.path 1) = some t)
    (hm : partFromEnd d2.path 4 = partFromEnd d1.path 4)
    (hs : partFromEnd d2.path 5 = partFromEnd d1.path 5)
    (he : partFromEnd d2.path 3 = partFromEnd d1.path 3)
    (hvalid : partFromEnd d1.path 5 ∈ valid)
    (hens : partFromEnd d1.path 3 = "npt" ∨ partFromEnd d1.path 3 = "nvt")
    (_hdiff : resolveIterations d1.files ≠ resolveIterations d2.files) :
    ∃ tbl, analyze_calculations [d1, d2] valid = Except.ok tbl ∧
      cellOf tbl (partFromEnd d1.path 4) (partFromEnd d1.path 5) t (partFromEnd d1.path 3) =
        some ⟨(dirTally d1.files).completed + (dirTally d2.files).completed,
              (dirTally d1.files).not_started + (dirTally d2.files).not_started⟩ := by
  obtain ⟨tbl1, hstep1, hWF1, hcell1⟩ :=
    stepDir_ok_of_valid valid [] d1 t calcWF_nil h1p h1l h1t hvalid hens
  have hc1 : cellOf tbl1 (partFromEnd d1.path 4) (partFromEnd d1.path 5) t
      (partFromEnd d1.path 3) =
      some ⟨(dirTally d1.files).completed, (dirTally d1.files).not_started⟩ := by
    simpa [cellOf] using hcell1
  obtain ⟨tbl2, hstep2, hWF2, hcell2⟩ :=
    stepDir_ok_of_valid valid tbl1 d2 t hWF1 h2p h2l h2t
      (by rw [hs]; exact hvalid) (by rw [he]; exact hens)
  refine ⟨tbl2, ?_, ?_⟩
  · unfold analyze_calculations
    rw [List.foldlM_cons, hstep1, except_ok_bind, List.foldlM_cons, hstep2, except_ok_bind,
      List.foldlM_nil]
    rfl
  · rw [hm, hs, he] at hcell2
    rw [hc1] at hcell2
    simpa using hcell2

/-- Witness for C8: `.../A/PBE/npt/.../300` visited twice with iteration sets
`{0, 1}` (one completed, one not) and `{2}` (not completed); the shared cell
tallies 1 completed and 2 not-started. -/
theorem claim_C8_witness :
    ∃ tbl, analyze_calculations
      [⟨["", "scan", "A", "PBE", "npt", "1.0", "300"],
         ["POSCAR", "00_aimd_log", "00_aimd_REPORT", "01_aimd_log"]⟩,
       ⟨["", "other", "A", "PBE", "npt", "1.1", "300"], ["POSCAR", "02_aimd_log"]⟩] ["A"] =
        Except.ok tbl ∧
      cellOf tbl "PBE" "A" 300 "npt" =
        some ⟨(dirTally ["POSCAR", "00_aimd_log", "00_aimd_REPORT", "01_aimd_log"]).completed +
                (dirTally ["POSCAR", "02_aimd_log"]).completed,
              (dirTally ["POSCAR", "00_aimd_log", "00_aimd_REPORT", "01_aimd_log"]).not_started +
                (dirTally ["POSCAR", "02_aimd_log"]).not_started⟩ :=
  claim_C8_counts_sum_not_overwrite ["A"]
    ⟨["", "scan", "A", "PBE", "npt", "1.0", "300"],
      ["POSCAR", "00_aimd_log", "00_aimd_REPORT", "01_aimd_log"]⟩
    ⟨["", "other", "A", "PBE", "npt", "1.1", "300"], ["POSCAR", "02_aimd_log"]⟩ 300
    (by decide) (by decide) (by decide) (by decide) (by decide) (by decide)
    (by decide) (by decide) (by decide) (by decide) (by decide) (by decide)

/-- C9: in the rendered report each structure's temperature rows come out
sorted ascending by temperature (whatever the encounter order — e.g.
[500, 100, 300] prints as 100, 300, 500), the structure name appears only on
the first row of its block with a blank name field on the following rows. -/
theorem claim_C9_report_rows_sorted_grouped :
    (∀ tt : TempTable,
      List.Sorted (· ≤ ·) ((sortTemps tt).map Prod.fst) ∧
      List.Perm (sortTemps tt) tt) ∧
    (∀ (name : String) (tt : TempTable),
      structBlock name tt =
        match sortTemps tt with
        | [] => [""]
        | p :: rest => rowFor name p.1 p.2 :: (rest.map (fun q => rowFor "" q.1 q.2) ++ [""])) ∧
    (∀ (functional name : String) (tt : TempTable),
      print_summary [(functional, [(name, tt)])] =
        ("Functional: " ++ functional ++ "\n") :: headerRow :: dashRow ::
          structBlock name tt) ∧
    (sortTemps [(500, freshEns), (100, freshEns), (300, freshEns)]).map Prod.fst =
      [100, 300, 500] := by
  refine ⟨fun tt => ⟨?_, perm_sortBy Prod.fst tt⟩, structBlock_shape, ?_, by rfl⟩
  · exact List.pairwise_map.mpr (pairwise_sortBy Prod.fst tt)
  · intro functional name tt
    simp [print_summary, methodBlock]

/-- C10: a walked calculation directory with a valid structure name,
sufficient depth and numeric temperature but zero iteration-pattern files is
processed without any error — even when its ensemble segment is neither
`"npt"` nor `"nvt"` — and the table keeps (or freshly creates zero-valued)
`StatusCounts` entries for both `"npt"` and `"nvt"` at
`[method][structure][temperature]`. -/
theorem claim_C10_no_iterations_no_error
    (valid : List String) (tbl : CalcTable) (d : WalkDir) (t : Int)
    (hWF : calcWF tbl) (hpos : "POSCAR" ∈ d.files) (hlen : d.path.length ≥ 6)
    (ht : pyIntParse (partFromEnd d.path 1) = some t)
    (hvalid : partFromEnd d.path 5 ∈ valid)
    (hnoiter : ∀ f ∈ d.files, matchesAimd f = false) :
    stepDir valid tbl d =
      Except.ok (ensureEntry tbl (partFromEnd d.path 4) (partFromEnd d.path 5) t) ∧
    cellOf (ensureEntry tbl (partFromEnd d.path 4) (partFromEnd d.path 5) t)
        (partFromEnd d.path 4) (partFromEnd d.path 5) t "npt" =
      some ((cellOf tbl (partFromEnd d.path 4) (partFromEnd d.path 5) t "npt").getD ⟨0, 0⟩) ∧
    cellOf (ensureEntry tbl (partFromEnd d.path 4) (partFromEnd d.path 5) t)
        (partFromEnd d.path 4) (partFromEnd d.path 5) t "nvt" =
      some ((cellOf tbl (partFromEnd d.path 4) (partFromEnd d.path 5) t "nvt").getD ⟨0, 0⟩) := by
  have hempty := resolveIterations_eq_nil d.files hnoiter
  refine ⟨?_,
    cellOf_ensureEntry tbl (partFromEnd d.path 4) (partFromEnd d.path 5) t "npt" hWF
      (Or.inl rfl),
    cellOf_ensureEntry tbl (partFromEnd d.path 4) (partFromEnd d.path 5) t "nvt" hWF
      (Or.inr rfl)⟩
  simp [stepDir, hpos, hlen, ht, hvalid, hempty]

/-- Witness for C10: ensemble segment `xyz` with no iteration files — the
step succeeds and installs zero counts for both ensembles. -/
theorem claim_C10_witness :
    stepDir ["A"] [] ⟨["", "scan", "A", "PBE", "xyz", "1.0", "300"], ["POSCAR"]⟩ =
      Except.ok (ensureEntry [] "PBE" "A" 300) ∧
    cellOf (ensureEntry [] "PBE" "A" 300) "PBE" "A" 300 "npt" =
      some ((cellOf [] "PBE" "A" 300 "npt").getD ⟨0, 0⟩) ∧
    cellOf (ensureEntry [] "PBE" "A" 300) "PBE" "A" 300 "nvt" =
      some ((cellOf [] "PBE" "A" 300 "nvt").getD ⟨0, 0⟩) :=
  claim_C10_no_iterations_no_error ["A"] []
    ⟨["", "scan", "A", "PBE", "xyz", "1.0", "300"], ["POSCAR"]⟩ 300
    calcWF_nil (by decide) (by decide) (by decide) (by decide) (by decide)

end MDStatus
